import Mathlib

/-!
Verification of the just-risk-it crash-game engine.

The development shallowly embeds the provably-fair core of the repository:

* the off-chain curve generator of `crash-game-backend`
  (`deriveSeed`, `getRandom`, `generateCrashGame`, appended to
  `src/contracts/contracts/CrashGame.sol` after the Solidity text);
* the Solidity contract `CrashGame` (`revealServerSeed`, the cash-out
  payout arithmetic of `processCashOuts`);
* the WebSocket orchestrator `pyth-entropy-handler.ts`
  (`handleCashOutRequest`, the settlement batching loop of `runGame`).

Modelling conventions:

* keccak-256 is kept abstract: every definition that hashes takes a
  parameter `keccak : List Nat → Nat`, standing for the digest of a byte
  string interpreted as a big-endian integer (which is how the source
  consumes it, via `BigInt(ethers.keccak256 bytes)`).  Theorems about
  256-bit digests carry the hypothesis that `keccak` only returns values
  below `2 ^ 256`.
* JavaScript `number` arithmetic inside the curve generator is modelled
  by exact rational arithmetic.  The one place where IEEE-754 rounding
  is externally observable — the `Number(hash) / Number(maxUint256)`
  division of `getRandom` — is modelled bit-precisely by `roundDouble`,
  an executable round-to-nearest-even conversion to 53-bit significands.
  (All values reached there are in the normal double range, so neither
  overflow nor subnormals need to be represented.)
* `Math.pow` with fractional exponents has no exact rational semantics;
  the generator is parametric in a function `pw : ℚ → ℚ → ℚ` standing
  for it, and every theorem holds for an arbitrary such function.
* division by zero follows the Lean convention `q / 0 = 0` where
  JavaScript would produce `Infinity`; the only reachable such point is
  `rawMultiplier` at `r0 = 1`, where both conventions land inside the
  clamped range `[1, 10000]`, so no stated property depends on it.
-/

/-! ### Byte encodings (`ethers.toBeHex`, `ethers.zeroPadValue`, `ethers.toUtf8Bytes`) -/

/-- Little-endian base-256 digits of `x`, least significant first, empty for `0`.
Helper for `beBytes`. -/
def beBytesGo (x : Nat) : List Nat :=
  if x = 0 then [] else (x % 256) :: beBytesGo (x / 256)
termination_by x
decreasing_by exact Nat.div_lt_self (Nat.pos_of_ne_zero (by assumption)) (by norm_num)

/-- Bytes of `ethers.toBeHex x`: the minimal big-endian base-256 encoding of
`x`, with `[0]` for `0` (ethers renders `0` as `0x00`). -/
def beBytes (x : Nat) : List Nat :=
  if x = 0 then [0] else (beBytesGo x).reverse

/-- `ethers.zeroPadValue bs 32`: left-pad a byte string with zero bytes to
length 32.  (The source throws on inputs longer than 32 bytes; all call
sites in this development are 256-bit values.) -/
def zeroPad32 (bs : List Nat) : List Nat :=
  List.replicate (32 - bs.length) 0 ++ bs

/-- Specification-side encoding: the `n`-byte big-endian encoding of `x`,
written directly from the words of the spec (most significant byte first). -/
def beFixed : Nat → Nat → List Nat
  | 0, _ => []
  | n + 1, x => beFixed n (x / 256) ++ [x % 256]

/-- UTF-8 bytes of a string (`ethers.toUtf8Bytes`), as `Nat` values. -/
def utf8Bytes (s : String) : List Nat :=
  s.toUTF8.toList.map (fun b => b.toNat)

theorem beFixed_zero (n : Nat) : beFixed n 0 = List.replicate n 0 := by
  induction n with
  | zero => rfl
  | succ n ih =>
      show beFixed n (0 / 256) ++ [0 % 256] = _
      rw [Nat.zero_div, ih, List.replicate_succ']

theorem replicate_append_beBytesGo (n x : Nat) (hx : x < 256 ^ n) :
    List.replicate (n - (beBytesGo x).length) 0 ++ (beBytesGo x).reverse
      = beFixed n x := by
  induction n generalizing x with
  | zero =>
      interval_cases x
      simp [beBytesGo, beFixed]
  | succ n ih =>
      by_cases h0 : x = 0
      · subst h0
        rw [beBytesGo]
        simp [beFixed_zero, List.replicate_succ']
      · rw [beBytesGo, if_neg h0]
        have hdiv : x / 256 < 256 ^ n := by
          rw [Nat.div_lt_iff_lt_mul (by norm_num)]
          calc x < 256 ^ (n + 1) := hx
          _ = 256 ^ n * 256 := by ring
        have ihx := ih (x / 256) hdiv
        show List.replicate (n + 1 - ((x % 256) :: beBytesGo (x / 256)).length) 0 ++
          ((x % 256) :: beBytesGo (x / 256)).reverse = beFixed n (x / 256) ++ [x % 256]
        rw [List.length_cons, List.reverse_cons, Nat.succ_sub_succ, ← List.append_assoc, ihx]

/-- For 256-bit values, the source encoding
`zeroPadValue (toBeHex x) 32` agrees with the plain 32-byte big-endian
encoding of the spec. -/
theorem zeroPad32_beBytes (x : Nat) (hx : x < 2 ^ 256) :
    zeroPad32 (beBytes x) = beFixed 32 x := by
  have hx' : x < 256 ^ 32 := by
    calc x < 2 ^ 256 := hx
    _ = 256 ^ 32 := by norm_num
  by_cases h0 : x = 0
  · subst h0
    rw [beFixed_zero]
    rfl
  · rw [beBytes, if_neg h0, zeroPad32, List.length_reverse]
    exact replicate_append_beBytesGo 32 x hx'

/-! ### Seed derivation (`deriveSeed` in the backend generator) -/

/-- Embedding of the backend `deriveSeed(vrfRandom, roundId, serverSeed, chainId)`:
pads the three integers to 32 bytes, appends the raw UTF-8 bytes of the server
seed, concatenates and hashes.  The digest is consumed as a big integer. -/
def deriveSeed (keccak : List Nat → Nat)
    (vrfRandom roundId : Nat) (serverSeed : String) (chainId : Nat) : Nat :=
  let vrfBytes := zeroPad32 (beBytes vrfRandom)
  let roundBytes := zeroPad32 (beBytes roundId)
  let seedBytes := utf8Bytes serverSeed
  let chainBytes := zeroPad32 (beBytes chainId)
  keccak (vrfBytes ++ roundBytes ++ seedBytes ++ chainBytes)

/-- C1: deriveSeed hashes the concatenation of the 32-byte big-endian
encodings of entropy, round id and chain id, with the unpadded UTF-8 server
seed bytes in between. -/
theorem deriveSeed_eq_spec (keccak : List Nat → Nat)
    (vrfRandom roundId chainId : Nat) (serverSeed : String)
    (hv : vrfRandom < 2 ^ 256) (hr : roundId < 2 ^ 256) (hc : chainId < 2 ^ 256) :
    deriveSeed keccak vrfRandom roundId serverSeed chainId
      = keccak (beFixed 32 vrfRandom ++ beFixed 32 roundId ++
          utf8Bytes serverSeed ++ beFixed 32 chainId) := by
  unfold deriveSeed
  rw [zeroPad32_beBytes vrfRandom hv, zeroPad32_beBytes roundId hr,
    zeroPad32_beBytes chainId hc]

/-- Witness for C1 at concrete inputs. -/
theorem deriveSeed_eq_spec_witness :
    deriveSeed (fun bs => bs.length) 5 1 "ab" 10143
      = (fun bs => bs.length)
          (beFixed 32 5 ++ beFixed 32 1 ++ utf8Bytes "ab" ++ beFixed 32 10143) :=
  deriveSeed_eq_spec (fun bs => bs.length) 5 1 10143 "ab"
    (by norm_num) (by norm_num) (by norm_num)


/-! ### The `getRandom` division and its double-precision semantics -/

/-- The literal denominator of `getRandom`:
`BigInt('0xffff…ffff')` with 64 `f` digits, exactly as written in the source. -/
def maxUint256Const : Nat :=
  0xffffffffffffffffffffffffffffffffffffffffffffffffffffffffffffffff

/-- Fuel-driven binary logarithm (structural recursion, so that it reduces
inside the kernel).  `log2fuel fuel n` is the floor of `log₂ n` whenever
`n ≤ fuel`. -/
def log2fuel : Nat → Nat → Nat
  | 0, _ => 0
  | fuel + 1, n => if n ≤ 1 then 0 else 1 + log2fuel fuel (n / 2)

/-- Floor of the binary logarithm of a positive natural number. -/
def natLog2 (n : Nat) : Nat := log2fuel n n

theorem log2fuel_spec (fuel : Nat) :
    ∀ n, n ≤ fuel → 1 ≤ n →
      2 ^ log2fuel fuel n ≤ n ∧ n < 2 ^ (log2fuel fuel n + 1) := by
  induction fuel with
  | zero => intro n hn h1; omega
  | succ fuel ih =>
      intro n hn h1
      rw [log2fuel]
      by_cases hsmall : n ≤ 1
      · rw [if_pos hsmall]
        refine ⟨by simpa using h1, ?_⟩
        have : n = 1 := by omega
        simp [this]
      · rw [if_neg hsmall]
        have h2 : 2 ≤ n := by omega
        obtain ⟨hl, hr⟩ := ih (n / 2) (by omega) (by omega)
        have e1 : (2 : Nat) ^ (1 + log2fuel fuel (n / 2))
            = 2 * 2 ^ log2fuel fuel (n / 2) := by ring
        have e2 : (2 : Nat) ^ (1 + log2fuel fuel (n / 2) + 1)
            = 2 * 2 ^ (log2fuel fuel (n / 2) + 1) := by ring
        rw [e1, e2]
        constructor
        · have t1 : 2 * 2 ^ log2fuel fuel (n / 2) ≤ 2 * (n / 2) :=
            Nat.mul_le_mul le_rfl hl
          omega
        · have t2 : n / 2 + 1 ≤ 2 ^ (log2fuel fuel (n / 2) + 1) := hr
          have t3 : 2 * (n / 2 + 1) ≤ 2 * 2 ^ (log2fuel fuel (n / 2) + 1) :=
            Nat.mul_le_mul le_rfl t2
          omega

theorem natLog2_spec (n : Nat) (h1 : 1 ≤ n) :
    2 ^ natLog2 n ≤ n ∧ n < 2 ^ (natLog2 n + 1) :=
  log2fuel_spec n n le_rfl h1

/-- Binade exponent of a positive rational: the unique `e` with
`2 ^ e ≤ q < 2 ^ (e + 1)`. -/
def qexp (q : ℚ) : ℤ :=
  let e0 : ℤ := (natLog2 q.num.toNat : ℤ) - (natLog2 q.den : ℤ)
  if q < 2 ^ e0 then e0 - 1 else e0

theorem binade_bounds (q : ℚ) (a b la lb : Nat) (hq : q = (a : ℚ) / (b : ℚ))
    (hb : 0 < b) (hal : 2 ^ la ≤ a) (har : a < 2 ^ (la + 1))
    (hbl : 2 ^ lb ≤ b) (hbr : b < 2 ^ (lb + 1)) :
    (2 : ℚ) ^ ((la : ℤ) - (lb : ℤ) - 1) < q ∧ q < 2 ^ ((la : ℤ) - (lb : ℤ) + 1) := by
  have hb0 : (0 : ℚ) < (b : ℚ) := by exact_mod_cast hb
  have cast_pow : ∀ n : Nat, ((2 ^ n : Nat) : ℚ) = (2 : ℚ) ^ ((n : ℤ)) := by
    intro n
    rw [zpow_natCast]
    push_cast
    ring
  have halQ : (2 : ℚ) ^ ((la : ℤ)) ≤ (a : ℚ) := by
    rw [← cast_pow la]
    exact_mod_cast hal
  have harQ : (a : ℚ) < 2 ^ ((la : ℤ) + 1) := by
    have : ((la : ℤ) + 1) = ((la + 1 : Nat) : ℤ) := by push_cast; ring
    rw [this, ← cast_pow (la + 1)]
    exact_mod_cast har
  have hblQ : (2 : ℚ) ^ ((lb : ℤ)) ≤ (b : ℚ) := by
    rw [← cast_pow lb]
    exact_mod_cast hbl
  have hbrQ : (b : ℚ) < 2 ^ ((lb : ℤ) + 1) := by
    have : ((lb : ℤ) + 1) = ((lb + 1 : Nat) : ℤ) := by push_cast; ring
    rw [this, ← cast_pow (lb + 1)]
    exact_mod_cast hbr
  constructor
  · rw [hq, lt_div_iff₀ hb0]
    calc (2 : ℚ) ^ ((la : ℤ) - (lb : ℤ) - 1) * (b : ℚ)
        < 2 ^ ((la : ℤ) - (lb : ℤ) - 1) * 2 ^ ((lb : ℤ) + 1) :=
          mul_lt_mul_of_pos_left hbrQ (zpow_pos (by norm_num) _)
    _ = 2 ^ ((la : ℤ)) := by
          rw [← zpow_add₀ (two_ne_zero : (2 : ℚ) ≠ 0)]
          congr 1
          ring
    _ ≤ (a : ℚ) := halQ
  · rw [hq, div_lt_iff₀ hb0]
    calc (a : ℚ) < 2 ^ ((la : ℤ) + 1) := harQ
    _ = 2 ^ ((la : ℤ) - (lb : ℤ) + 1) * 2 ^ ((lb : ℤ)) := by
          rw [← zpow_add₀ (two_ne_zero : (2 : ℚ) ≠ 0)]
          congr 1
          ring
    _ ≤ 2 ^ ((la : ℤ) - (lb : ℤ) + 1) * (b : ℚ) :=
          mul_le_mul_of_nonneg_left hblQ (zpow_pos (by norm_num) _).le

theorem qexp_spec (q : ℚ) (hq : 0 < q) :
    (2 : ℚ) ^ qexp q ≤ q ∧ q < 2 ^ (qexp q + 1) := by
  have hnum : 0 < q.num := Rat.num_pos.mpr hq
  have ha1 : 1 ≤ q.num.toNat := by omega
  have hcast : ((q.num.toNat : Nat) : ℚ) = (q.num : ℚ) := by
    exact_mod_cast Int.toNat_of_nonneg hnum.le
  have hq_eq : q = (q.num.toNat : ℚ) / (q.den : ℚ) := by
    rw [hcast]
    exact (Rat.num_div_den q).symm
  obtain ⟨hal, har⟩ := natLog2_spec q.num.toNat ha1
  obtain ⟨hbl, hbr⟩ := natLog2_spec q.den q.pos
  obtain ⟨key1, key2⟩ :=
    binade_bounds q q.num.toNat q.den (natLog2 q.num.toNat) (natLog2 q.den)
      hq_eq q.pos hal har hbl hbr
  simp only [qexp]
  split_ifs with h
  · refine ⟨key1.le, ?_⟩
    have e : (natLog2 q.num.toNat : ℤ) - (natLog2 q.den : ℤ) - 1 + 1
        = (natLog2 q.num.toNat : ℤ) - (natLog2 q.den : ℤ) := by ring
    rw [e]
    exact h
  · exact ⟨le_of_not_lt h, key2⟩

/-- Round a rational to the nearest integer, ties to even (the rounding of
IEEE-754 `roundTiesToEven`, used by the JavaScript `Number` conversion). -/
def rne (q : ℚ) : ℤ :=
  let n := ⌊q⌋
  let f := q - (n : ℚ)
  if f < 1 / 2 then n
  else if 1 / 2 < f then n + 1
  else if n % 2 = 0 then n else n + 1

theorem rne_ge_floor (q : ℚ) : ⌊q⌋ ≤ rne q := by
  simp only [rne]
  split_ifs <;> omega

theorem rne_le_floor_succ (q : ℚ) : rne q ≤ ⌊q⌋ + 1 := by
  simp only [rne]
  split_ifs <;> omega

theorem rne_nonneg (q : ℚ) (h : 0 ≤ q) : 0 ≤ rne q :=
  le_trans (Int.floor_nonneg.mpr h) (rne_ge_floor q)

/-- Conversion of a rational to the nearest IEEE-754 binary64 value
(round to nearest, ties to even), as an exact rational: the significand is
rounded to 53 bits at the value's binade.  Overflow and subnormals are not
represented; every value this development feeds in lies well inside the
normal range. -/
def roundDouble (q : ℚ) : ℚ :=
  if 0 < q then ((rne (q * 2 ^ (52 - qexp q)) : ℤ) : ℚ) * 2 ^ (qexp q - 52)
  else if q < 0 then -(((rne (-q * 2 ^ (52 - qexp (-q))) : ℤ) : ℚ) * 2 ^ (qexp (-q) - 52))
  else 0

theorem two_zpow_int_cast (n : Nat) : (((2 : ℤ) ^ n : ℤ) : ℚ) = (2 : ℚ) ^ ((n : ℤ)) := by
  rw [zpow_natCast]
  push_cast
  ring

theorem roundDouble_pos_eq (q : ℚ) (h : 0 < q) :
    roundDouble q = ((rne (q * 2 ^ (52 - qexp q)) : ℤ) : ℚ) * 2 ^ (qexp q - 52) := by
  simp only [roundDouble, if_pos h]

theorem roundDouble_zero : roundDouble 0 = 0 := by
  simp [roundDouble]

theorem mantissa_bounds (q : ℚ) (h : 0 < q) :
    (2 : ℚ) ^ (52 : ℤ) ≤ q * 2 ^ (52 - qexp q) ∧
      q * 2 ^ (52 - qexp q) < 2 ^ (53 : ℤ) := by
  obtain ⟨h1, h2⟩ := qexp_spec q h
  have hp : (0 : ℚ) < 2 ^ (52 - qexp q) := zpow_pos (by norm_num) _
  constructor
  · calc (2 : ℚ) ^ (52 : ℤ) = 2 ^ qexp q * 2 ^ (52 - qexp q) := by
          rw [← zpow_add₀ (two_ne_zero : (2 : ℚ) ≠ 0)]
          congr 1
          ring
    _ ≤ q * 2 ^ (52 - qexp q) := mul_le_mul_of_nonneg_right h1 hp.le
  · calc q * 2 ^ (52 - qexp q) < 2 ^ (qexp q + 1) * 2 ^ (52 - qexp q) :=
          mul_lt_mul_of_pos_right h2 hp
    _ = 2 ^ (53 : ℤ) := by
          rw [← zpow_add₀ (two_ne_zero : (2 : ℚ) ≠ 0)]
          congr 1
          ring

theorem roundDouble_le_zpow_succ (q : ℚ) (h : 0 < q) :
    roundDouble q ≤ 2 ^ (qexp q + 1) := by
  rw [roundDouble_pos_eq q h]
  obtain ⟨hm1, hm2⟩ := mantissa_bounds q h
  have e53 : (2 : ℚ) ^ (53 : ℤ) = (((2 : ℤ) ^ 53 : ℤ) : ℚ) := by norm_num
  have hfloor : ⌊q * 2 ^ (52 - qexp q)⌋ < 2 ^ 53 := by
    rw [Int.floor_lt]
    rw [e53] at hm2
    exact_mod_cast hm2
  have hr : rne (q * 2 ^ (52 - qexp q)) ≤ 2 ^ 53 :=
    le_trans (rne_le_floor_succ _) (by omega)
  have hrQ : ((rne (q * 2 ^ (52 - qexp q)) : ℤ) : ℚ) ≤ (2 : ℚ) ^ (53 : ℤ) := by
    rw [e53]
    exact_mod_cast hr
  calc ((rne (q * 2 ^ (52 - qexp q)) : ℤ) : ℚ) * 2 ^ (qexp q - 52)
      ≤ (2 : ℚ) ^ (53 : ℤ) * 2 ^ (qexp q - 52) :=
        mul_le_mul_of_nonneg_right hrQ (zpow_pos (by norm_num) _).le
  _ = 2 ^ (qexp q + 1) := by
        rw [← zpow_add₀ (two_ne_zero : (2 : ℚ) ≠ 0)]
        congr 1
        ring

theorem zpow_le_roundDouble (q : ℚ) (h : 0 < q) :
    (2 : ℚ) ^ qexp q ≤ roundDouble q := by
  rw [roundDouble_pos_eq q h]
  obtain ⟨hm1, _⟩ := mantissa_bounds q h
  have e52 : (2 : ℚ) ^ (52 : ℤ) = (((2 : ℤ) ^ 52 : ℤ) : ℚ) := by norm_num
  have hfloor : (2 : ℤ) ^ 52 ≤ ⌊q * 2 ^ (52 - qexp q)⌋ := by
    rw [Int.le_floor]
    rw [e52] at hm1
    exact_mod_cast hm1
  have hr : (2 : ℤ) ^ 52 ≤ rne (q * 2 ^ (52 - qexp q)) :=
    le_trans hfloor (rne_ge_floor _)
  have hrQ : (2 : ℚ) ^ (52 : ℤ) ≤ ((rne (q * 2 ^ (52 - qexp q)) : ℤ) : ℚ) := by
    rw [e52]
    exact_mod_cast hr
  calc (2 : ℚ) ^ qexp q = 2 ^ (52 : ℤ) * 2 ^ (qexp q - 52) := by
        rw [← zpow_add₀ (two_ne_zero : (2 : ℚ) ≠ 0)]
        congr 1
        ring
  _ ≤ ((rne (q * 2 ^ (52 - qexp q)) : ℤ) : ℚ) * 2 ^ (qexp q - 52) :=
        mul_le_mul_of_nonneg_right hrQ (zpow_pos (by norm_num) _).le

theorem roundDouble_nonneg (q : ℚ) (h : 0 ≤ q) : 0 ≤ roundDouble q := by
  rcases eq_or_lt_of_le h with heq | hpos
  · rw [← heq, roundDouble_zero]
  · rw [roundDouble_pos_eq q hpos]
    have hm : (0 : ℚ) ≤ q * 2 ^ (52 - qexp q) :=
      mul_nonneg hpos.le (zpow_pos (by norm_num) _).le
    exact mul_nonneg (by exact_mod_cast rne_nonneg _ hm) (zpow_pos (by norm_num) _).le

theorem roundDouble_le_of_lt_zpow (q : ℚ) (k : ℤ) (h0 : 0 ≤ q) (h : q < 2 ^ k) :
    roundDouble q ≤ 2 ^ k := by
  rcases eq_or_lt_of_le h0 with heq | hpos
  · rw [← heq, roundDouble_zero]
    exact (zpow_pos (by norm_num) k).le
  · have he : qexp q + 1 ≤ k := by
      by_contra hc
      push_neg at hc
      have hk : k ≤ qexp q := by omega
      have h1 : (2 : ℚ) ^ k ≤ 2 ^ qexp q := by
        apply zpow_le_zpow_right₀ one_le_two hk
      have h2 := (qexp_spec q hpos).1
      linarith
    calc roundDouble q ≤ 2 ^ (qexp q + 1) := roundDouble_le_zpow_succ q hpos
    _ ≤ 2 ^ k := zpow_le_zpow_right₀ one_le_two he

theorem maxConst_eq : maxUint256Const = 2 ^ 256 - 1 := by decide

set_option maxRecDepth 8000 in
theorem natLog2_maxConst : natLog2 maxUint256Const = 255 := by decide

theorem qexp_one : qexp 1 = 0 := by
  simp only [qexp, Rat.num_ofNat, Rat.den_ofNat]
  norm_num

theorem roundDouble_one : roundDouble 1 = 1 := by
  rw [roundDouble_pos_eq 1 one_pos, qexp_one]
  have hm : (1 : ℚ) * 2 ^ (52 - 0 : ℤ) = 2 ^ 52 := by norm_num
  rw [hm]
  have hrne : rne ((2 : ℚ) ^ 52) = 2 ^ 52 := by
    simp only [rne]
    have hfl : ⌊(2 : ℚ) ^ 52⌋ = 2 ^ 52 := by norm_num
    rw [hfl, if_pos (by norm_num)]
  rw [hrne]
  norm_num

theorem qexp_maxConst : qexp ((maxUint256Const : Nat) : ℚ) = 255 := by
  have hnum : ((maxUint256Const : Nat) : ℚ).num.toNat = maxUint256Const := by
    rw [Rat.num_natCast]
    exact Int.toNat_natCast _
  have hden : ((maxUint256Const : Nat) : ℚ).den = 1 := Rat.den_natCast _
  have h1 : natLog2 1 = 0 := rfl
  simp only [qexp, hnum, hden, natLog2_maxConst, h1]
  have hcond : ¬ ((maxUint256Const : Nat) : ℚ) < 2 ^ ((255 : Nat) - (0 : Nat) : ℤ) := by
    push_neg
    rw [maxConst_eq]
    have he : ((255 : Nat) - (0 : Nat) : ℤ) = (255 : ℤ) := by norm_num
    rw [he]
    have : ((2 ^ 256 - 1 : Nat) : ℚ) = 2 ^ 256 - 1 := by
      rw [Nat.cast_sub (by norm_num)]
      push_cast
      ring
    rw [this]
    norm_num
  rw [if_neg (by exact_mod_cast hcond)]
  norm_num

theorem castMaxConst : ((maxUint256Const : Nat) : ℚ) = 2 ^ 256 - 1 := by
  rw [maxConst_eq, Nat.cast_sub (by norm_num)]
  push_cast
  ring

theorem roundDouble_maxConst :
    roundDouble ((maxUint256Const : Nat) : ℚ) = 2 ^ (256 : ℤ) := by
  have hpos : (0 : ℚ) < ((maxUint256Const : Nat) : ℚ) := by
    rw [castMaxConst]
    norm_num
  rw [roundDouble_pos_eq _ hpos, qexp_maxConst]
  have hm : ((maxUint256Const : Nat) : ℚ) * 2 ^ (52 - 255 : ℤ)
      = (2 ^ 256 - 1) / 2 ^ 203 := by
    rw [castMaxConst]
    have he : (52 - 255 : ℤ) = -(203 : ℤ) := by norm_num
    rw [he, zpow_neg]
    have : ((2 : ℚ) ^ (203 : ℤ)) = 2 ^ (203 : Nat) := by norm_num
    rw [this, div_eq_mul_inv]
  rw [hm]
  have hrne : rne (((2 : ℚ) ^ 256 - 1) / 2 ^ 203) = 2 ^ 53 := by
    simp only [rne]
    have hfl : ⌊((2 : ℚ) ^ 256 - 1) / 2 ^ 203⌋ = 2 ^ 53 - 1 := by
      rw [Int.floor_eq_iff]
      constructor
      · push_cast
        rw [le_div_iff₀ (by norm_num : (0 : ℚ) < 2 ^ 203)]
        norm_num
      · push_cast
        rw [div_lt_iff₀ (by norm_num : (0 : ℚ) < 2 ^ 203)]
        norm_num
    rw [hfl, if_neg, if_pos]
    · norm_num
    · push_cast
      rw [lt_sub_iff_add_lt, lt_div_iff₀ (by norm_num : (0 : ℚ) < 2 ^ 203)]
      norm_num
    · push_neg
      push_cast
      rw [le_sub_iff_add_le, le_div_iff₀ (by norm_num : (0 : ℚ) < 2 ^ 203)]
      norm_num
  rw [hrne]
  push_cast
  norm_num

/-- Embedding of the backend `getRandom(i)` (closure over the derived seed):
pads seed and index to 32 bytes, hashes, and computes
`Number(hashBigInt) / Number(maxUint256)` — both operands and the quotient
go through double-precision rounding, exactly as in JavaScript. -/
def getRandom (keccak : List Nat → Nat) (seed i : Nat) : ℚ :=
  let seedBytes := zeroPad32 (beBytes seed)
  let indexBytes := zeroPad32 (beBytes i)
  let hashBigInt := keccak (seedBytes ++ indexBytes)
  roundDouble (roundDouble ((hashBigInt : Nat) : ℚ) / roundDouble ((maxUint256Const : Nat) : ℚ))

/-- Shared bound: with 256-bit digests, `getRandom` lands in `[0, 1]`.
The upper end is attained (see the corresponding counterexample); `1` is
the rounded quotient whenever the digest itself rounds to `2 ^ 256`. -/
theorem getRandom_bounds (keccak : List Nat → Nat) (seed i : Nat)
    (hk : ∀ bs, keccak bs < 2 ^ 256) :
    0 ≤ getRandom keccak seed i ∧ getRandom keccak seed i ≤ 1 := by
  simp only [getRandom]
  have hH : keccak (zeroPad32 (beBytes seed) ++ zeroPad32 (beBytes i)) < 2 ^ 256 := hk _
  set h := keccak (zeroPad32 (beBytes seed) ++ zeroPad32 (beBytes i)) with hh
  have hnum0 : 0 ≤ roundDouble ((h : Nat) : ℚ) := roundDouble_nonneg _ (Nat.cast_nonneg _)
  have hcast : ((h : Nat) : ℚ) < 2 ^ (256 : ℤ) := by
    have e : (2 : ℚ) ^ (256 : ℤ) = ((2 ^ 256 : Nat) : ℚ) := by norm_num
    rw [e]
    exact_mod_cast hH
  have hnumle : roundDouble ((h : Nat) : ℚ) ≤ 2 ^ (256 : ℤ) :=
    roundDouble_le_of_lt_zpow _ _ (Nat.cast_nonneg _) hcast
  rw [roundDouble_maxConst]
  have hden : (0 : ℚ) < 2 ^ (256 : ℤ) := zpow_pos (by norm_num) _
  have hq0 : 0 ≤ roundDouble ((h : Nat) : ℚ) / 2 ^ (256 : ℤ) := div_nonneg hnum0 hden.le
  have hqle : roundDouble ((h : Nat) : ℚ) / 2 ^ (256 : ℤ) ≤ 1 := by
    rw [div_le_one hden]
    simpa using hnumle
  refine ⟨roundDouble_nonneg _ hq0, ?_⟩
  rcases lt_or_eq_of_le hqle with hlt | heq
  · have h1 : roundDouble (roundDouble ((h : Nat) : ℚ) / 2 ^ (256 : ℤ)) ≤ 2 ^ (0 : ℤ) :=
      roundDouble_le_of_lt_zpow _ 0 hq0 (by rw [zpow_zero]; exact hlt)
    simpa using h1
  · rw [heq, roundDouble_one]

/-- At a digest of `2 ^ 256 - 1` (all bits set), both the numerator and the
denominator of `getRandom` round to `2 ^ 256`, and the quotient is exactly 1. -/
theorem getRandom_attains_one :
    getRandom (fun _ => 2 ^ 256 - 1) 0 0 = 1 := by
  simp only [getRandom]
  have e : ((2 ^ 256 - 1 : Nat) : ℚ) = ((maxUint256Const : Nat) : ℚ) := by
    rw [maxConst_eq]
  rw [e, roundDouble_maxConst, div_self (ne_of_gt (zpow_pos (by norm_num) _)),
    roundDouble_one]

/-! ### JavaScript rounding helpers used by the generator -/

/-- `Math.round` for the nonnegative values this code feeds it:
round half up, i.e. the floor of `q + 1/2`. -/
def jsRound (q : ℚ) : ℤ := ⌊q + 1 / 2⌋

/-- `Math.round(q * 100) / 100`: round to two decimal places. -/
def roundTo2 (q : ℚ) : ℚ := ((jsRound (q * 100) : ℤ) : ℚ) / 100

theorem jsRound_mono {a b : ℚ} (h : a ≤ b) : jsRound a ≤ jsRound b :=
  Int.floor_le_floor (by linarith)

theorem jsRound_intCast (n : ℤ) : jsRound ((n : ℚ)) = n := by
  unfold jsRound
  rw [add_comm, Int.floor_add_int]
  norm_num

theorem roundTo2_mono {a b : ℚ} (h : a ≤ b) : roundTo2 a ≤ roundTo2 b := by
  unfold roundTo2
  have h2 : jsRound (a * 100) ≤ jsRound (b * 100) :=
    jsRound_mono (by nlinarith)
  have h3 : ((jsRound (a * 100) : ℤ) : ℚ) ≤ ((jsRound (b * 100) : ℤ) : ℚ) := by
    exact_mod_cast h2
  linarith

theorem roundTo2_intCast_div (n : ℤ) : roundTo2 ((n : ℚ) / 100) = (n : ℚ) / 100 := by
  unfold roundTo2
  rw [div_mul_cancel₀ _ (by norm_num : (100 : ℚ) ≠ 0), jsRound_intCast]

/-- The clamp-and-round pipeline of the crash multiplier: the result lies in
`[1, 10000]` and is an integer number of hundredths. -/
theorem roundTo2_clamp_spec (raw : ℚ) :
    ∃ n : ℤ, 100 ≤ n ∧ n ≤ 1000000 ∧
      roundTo2 (max 1 (min raw 10000)) = (n : ℚ) / 100 := by
  set c := max 1 (min raw 10000) with hc
  have hc1 : 1 ≤ c := le_max_left _ _
  have hc2 : c ≤ 10000 := max_le (by norm_num) (min_le_right _ _)
  refine ⟨jsRound (c * 100), ?_, ?_, rfl⟩
  · have h100 : jsRound ((100 : ℚ)) ≤ jsRound (c * 100) := jsRound_mono (by nlinarith)
    have e : jsRound ((100 : ℚ)) = 100 := by
      have := jsRound_intCast 100
      simpa using this
    omega
  · have h1e6 : jsRound (c * 100) ≤ jsRound ((1000000 : ℚ)) := jsRound_mono (by nlinarith)
    have e : jsRound ((1000000 : ℚ)) = 1000000 := by
      have := jsRound_intCast 1000000
      simpa using this
    omega

/-! ### Calendar conversion (the UTC date getters on tick times) -/

/-- Calendar date of a tick, as the source emits it:
`{ year, month (1-12), day }` in UTC. -/
structure CandleTime where
  year : Nat
  month : Nat
  day : Nat

/-- Civil date from a day count since 1970-01-01 (standard era-based
conversion; all tick times in this development are nonnegative). -/
def civilFromDays (z : Nat) : CandleTime :=
  let z2 := z + 719468
  let era := z2 / 146097
  let doe := z2 % 146097
  let yoe := (doe - doe / 1460 + doe / 36524 - doe / 146096) / 365
  let y := yoe + era * 400
  let doy := doe - (365 * yoe + yoe / 4 - yoe / 100)
  let mp := (5 * doy + 2) / 153
  let d := doy - (153 * mp + 2) / 5 + 1
  let m := if mp < 10 then mp + 3 else mp - 9
  ⟨if m ≤ 2 then y + 1 else y, m, d⟩

/-- UTC calendar fields of a millisecond timestamp (`new Date(ms)` followed by
`getUTCFullYear()/getUTCMonth()+1/getUTCDate()`). -/
def dateFromMs (ms : Nat) : CandleTime := civilFromDays (ms / 86400000)

/-! ### The curve generator (`generateCrashGame`) -/

/-- One candle of the streamed chart.  `copen` stands for the source field
`open` (a reserved word in Lean); the other fields keep their names. -/
structure CandleBar where
  copen : ℚ
  high : ℚ
  low : ℚ
  close : ℚ
  time : CandleTime

/-- One element of the generated update sequence.  The optional `timestamp`
field of the source interface is absent here because `generateCrashGame`
never sets it (the server stamps it at send time). -/
structure GameUpdate where
  currentValue : ℤ
  bar : CandleBar
  gameState : Nat
  nextGameNoMoreBetsAt : Nat

/-- The input record of `generateCrashGame`.  `vrfRandom` and
`startTimestamp` are decimal strings in the source, parsed with `BigInt` and
`parseInt` on entry; they are carried here as the parsed numbers. -/
structure GameInput where
  roundId : Nat
  vrfRandom : Nat
  serverSeed : String
  chainId : Nat
  startTimestamp : Nat
  tickIntervalMs : Nat

/-- The result record of `generateCrashGame`. -/
structure CrashGameResult where
  updates : List GameUpdate
  finalMultiplier : ℚ
  rawMultiplier : ℚ

/-- The per-round constants consumed by the tick loop. -/
structure TickParams where
  rand : Nat → ℚ
  pw : ℚ → ℚ → ℚ
  maxPrice : ℚ
  minPrice : ℚ
  trendStrength : ℚ
  volatilityBase : ℚ
  volatilityDecay : ℚ
  gameTicks : Nat
  startTime : Nat
  tickIntervalMs : Nat

/-- The price move of tick `i` (source loop body up to the clamp):
target/volatility/bias/random walk, then the price is clamped to
`[minPrice, maxPrice]`. -/
def tickPrice (P : TickParams) (i : Nat) (price : ℚ) : ℚ :=
  let progress : ℚ := (i : ℚ) / (P.gameTicks : ℚ)
  let ra := P.rand (i + 10)
  let targetPrice := 1 + (P.maxPrice - 1) * P.pw progress 0.8
  let volatility := P.volatilityBase * P.pw (1 - progress) P.volatilityDecay
  let directionBias := (targetPrice - price) * P.trendStrength
  let randomMove := (ra - 0.5) * 2
  let priceChange := directionBias + randomMove * volatility
  max P.minPrice (min (price * (1 + priceChange)) P.maxPrice)

/-- The `for` loop of `generateCrashGame`: `fuel` counts the remaining
iterations (`gameTicks - i`), `prev` is `previousMultiplier`, `price` is the
running `currentPrice`.  The crash test uses the clamped, unrounded price,
exactly as the source does; the crash candle closes at `maxPrice`
(= `finalMultiplier`) and the loop stops. -/
def tickLoop (P : TickParams) : Nat → Nat → ℚ → ℚ → List GameUpdate
  | 0, _, _, _ => []
  | fuel + 1, i, prev, price =>
    let _rb := P.rand (i + 20)
    let price2 := tickPrice P i price
    let rounded := roundTo2 price2
    let t := dateFromMs (P.startTime * 1000 + i * P.tickIntervalMs)
    if P.maxPrice ≤ price2 ∨ i = P.gameTicks - 1 then
      [⟨⌊P.maxPrice * 100000⌋,
        ⟨prev, max prev P.maxPrice, min prev P.maxPrice, P.maxPrice, t⟩, 3, 0⟩]
    else
      ⟨⌊rounded * 100000⌋, ⟨prev, max prev rounded, min prev rounded, rounded, t⟩, 2, 0⟩
        :: tickLoop P fuel (i + 1) rounded price2

/-- Embedding of `generateCrashGame`, following the source line by line over
exact rationals (`getRandom` keeps its double-precision rounding). -/
def generateCrashGame (keccak : List Nat → Nat) (pw : ℚ → ℚ → ℚ)
    (input : GameInput) : CrashGameResult :=
  let derivedSeed :=
    deriveSeed keccak input.vrfRandom input.roundId input.serverSeed input.chainId
  let startTime := input.startTimestamp
  let rand : Nat → ℚ := fun i => getRandom keccak derivedSeed i
  let r0 := rand 0
  let r1 := rand 1
  let houseEdge : ℚ := 0.015
  let p := houseEdge + r0 * (1 - houseEdge)
  let rawMultiplier := (1 - houseEdge) / (1 - p)
  let crashMultiplier := max 1 (min rawMultiplier 10000)
  let finalMultiplier := roundTo2 crashMultiplier
  let r2 := rand 2
  let r3 := rand 3
  let r4 := rand 4
  let r5 := rand 5
  let minPrice := 0.40 + r2 * 0.30
  let trendStrength := 0.15 + r3 * 0.30
  let volatilityBase := 0.015 + r4 * 0.020
  let volatilityDecay := 0.5 + r5 * 0.4
  let baseDuration : ℚ := 3000
  let maxDuration : ℚ := 30000
  let duration : ℚ := baseDuration + ((⌊r1 * (maxDuration - baseDuration)⌋ : ℤ) : ℚ)
  let totalTicks : Nat := (⌈duration / (input.tickIntervalMs : ℚ)⌉).toNat
  let updates := tickLoop
    ⟨rand, pw, finalMultiplier, minPrice, trendStrength, volatilityBase,
      volatilityDecay, totalTicks, startTime, input.tickIntervalMs⟩
    totalTicks 0 1 1
  ⟨updates, finalMultiplier, rawMultiplier⟩

theorem tickLoop_spec (P : TickParams) (hfix : roundTo2 P.maxPrice = P.maxPrice)
    (hmp : P.minPrice ≤ P.maxPrice) :
    ∀ fuel i prev price, 1 ≤ fuel → i + fuel = P.gameTicks → prev ≤ P.maxPrice →
      ∃ pre last, tickLoop P fuel i prev price = pre ++ [last] ∧
        last.gameState = 3 ∧ last.bar.close = P.maxPrice ∧
        (∀ u ∈ pre, u.gameState = 2) ∧
        (∀ u ∈ tickLoop P fuel i prev price,
          u.bar.copen ≤ P.maxPrice ∧ u.bar.high ≤ P.maxPrice ∧
          u.bar.low ≤ P.maxPrice ∧ u.bar.close ≤ P.maxPrice ∧
          u.bar.high = max u.bar.copen u.bar.close ∧
          u.bar.low = min u.bar.copen u.bar.close) := by
  intro fuel
  induction fuel with
  | zero => intro i prev price h1; exact absurd h1 (by norm_num)
  | succ fuel ih =>
      intro i prev price _ hsum hprev
      have hp2 : tickPrice P i price ≤ P.maxPrice := max_le hmp (min_le_right _ _)
      have hrd : roundTo2 (tickPrice P i price) ≤ P.maxPrice := by
        calc roundTo2 (tickPrice P i price) ≤ roundTo2 P.maxPrice := roundTo2_mono hp2
        _ = P.maxPrice := hfix
      simp only [tickLoop]
      by_cases hc : P.maxPrice ≤ tickPrice P i price ∨ i = P.gameTicks - 1
      · rw [if_pos hc]
        refine ⟨[], _, rfl, rfl, rfl, by simp, ?_⟩
        intro u hu
        rw [List.mem_singleton] at hu
        subst hu
        exact ⟨hprev, max_le hprev le_rfl, (min_le_left _ _).trans hprev, le_rfl, rfl, rfl⟩
      · rw [if_neg hc]
        push_neg at hc
        obtain ⟨pre, last, heq, h3, hclose, hpre2, hall⟩ :=
          ih (i + 1) (roundTo2 (tickPrice P i price)) (tickPrice P i price)
            (by omega) (by omega) hrd
        refine ⟨⟨⌊roundTo2 (tickPrice P i price) * 100000⌋,
          ⟨prev, max prev (roundTo2 (tickPrice P i price)),
            min prev (roundTo2 (tickPrice P i price)),
            roundTo2 (tickPrice P i price), dateFromMs (P.startTime * 1000 + i * P.tickIntervalMs)⟩,
          2, 0⟩ :: pre, last, ?_, h3, hclose, ?_, ?_⟩
        · rw [heq, List.cons_append]
        · intro u hu
          rcases List.mem_cons.1 hu with h | h
          · subst h; rfl
          · exact hpre2 u h
        · intro u hu
          rcases List.mem_cons.1 hu with h | h
          · subst h
            exact ⟨hprev, max_le hprev hrd, (min_le_left _ _).trans hprev, hrd, rfl, rfl⟩
          · exact hall u h

/-- C10: the generated update sequence is a non-empty finite list; exactly
its last element is the CRASHED tick (gameState 3) and that tick closes at
`finalMultiplier` exactly; every candle stays at or below `finalMultiplier`
even after 2-decimal rounding, with `high = max(open, close)` and
`low = min(open, close)` in every candle. -/
theorem generateCrashGame_updates_spec (keccak : List Nat → Nat) (pw : ℚ → ℚ → ℚ)
    (input : GameInput) (hk : ∀ bs, keccak bs < 2 ^ 256)
    (ht : 1 ≤ input.tickIntervalMs) :
    ∃ pre last, (generateCrashGame keccak pw input).updates = pre ++ [last] ∧
      last.gameState = 3 ∧
      last.bar.close = (generateCrashGame keccak pw input).finalMultiplier ∧
      (∀ u ∈ pre, u.gameState = 2) ∧
      (∀ u ∈ (generateCrashGame keccak pw input).updates,
        u.bar.copen ≤ (generateCrashGame keccak pw input).finalMultiplier ∧
        u.bar.high ≤ (generateCrashGame keccak pw input).finalMultiplier ∧
        u.bar.low ≤ (generateCrashGame keccak pw input).finalMultiplier ∧
        u.bar.close ≤ (generateCrashGame keccak pw input).finalMultiplier ∧
        u.bar.high = max u.bar.copen u.bar.close ∧
        u.bar.low = min u.bar.copen u.bar.close) := by
  obtain ⟨n, hn1, hn2, heqF⟩ := roundTo2_clamp_spec
    ((1 - 0.015) / (1 - (0.015 + getRandom keccak
      (deriveSeed keccak input.vrfRandom input.roundId input.serverSeed input.chainId)
      0 * (1 - 0.015))))
  have hfinEq : (generateCrashGame keccak pw input).finalMultiplier
      = roundTo2 (max 1 (min ((1 - 0.015) /
          (1 - (0.015 + getRandom keccak
            (deriveSeed keccak input.vrfRandom input.roundId input.serverSeed input.chainId)
            0 * (1 - 0.015)))) 10000)) := rfl
  have h1F : 1 ≤ (generateCrashGame keccak pw input).finalMultiplier := by
    rw [hfinEq, heqF, le_div_iff₀ (by norm_num : (0 : ℚ) < 100)]
    have : (100 : ℚ) ≤ (n : ℚ) := by exact_mod_cast hn1
    linarith
  have hfix : roundTo2 (generateCrashGame keccak pw input).finalMultiplier
      = (generateCrashGame keccak pw input).finalMultiplier := by
    rw [hfinEq, heqF]
    exact roundTo2_intCast_div n
  have hr2 := getRandom_bounds keccak
    (deriveSeed keccak input.vrfRandom input.roundId input.serverSeed input.chainId) 2 hk
  have hmp : (0.40 : ℚ) + getRandom keccak
      (deriveSeed keccak input.vrfRandom input.roundId input.serverSeed input.chainId) 2 * 0.30
      ≤ (generateCrashGame keccak pw input).finalMultiplier := by
    have h07 : (0.40 : ℚ) + getRandom keccak
        (deriveSeed keccak input.vrfRandom input.roundId input.serverSeed input.chainId) 2 * 0.30
        ≤ 0.70 := by nlinarith [hr2.1, hr2.2]
    linarith
  have hr1 := getRandom_bounds keccak
    (deriveSeed keccak input.vrfRandom input.roundId input.serverSeed input.chainId) 1 hk
  have hfl : (0 : ℤ) ≤ ⌊getRandom keccak
      (deriveSeed keccak input.vrfRandom input.roundId input.serverSeed input.chainId) 1
      * ((30000 : ℚ) - 3000)⌋ :=
    Int.floor_nonneg.mpr (mul_nonneg hr1.1 (by norm_num))
  have hdur : (0 : ℚ) < 3000 + ((⌊getRandom keccak
      (deriveSeed keccak input.vrfRandom input.roundId input.serverSeed input.chainId) 1
      * ((30000 : ℚ) - 3000)⌋ : ℤ) : ℚ) := by
    have : (0 : ℚ) ≤ ((⌊getRandom keccak
        (deriveSeed keccak input.vrfRandom input.roundId input.serverSeed input.chainId) 1
        * ((30000 : ℚ) - 3000)⌋ : ℤ) : ℚ) := by exact_mod_cast hfl
    linarith
  have htickQ : (0 : ℚ) < (input.tickIntervalMs : ℚ) := by
    have : 0 < input.tickIntervalMs := ht
    exact_mod_cast this
  have hceil : 0 < ⌈(3000 + ((⌊getRandom keccak
      (deriveSeed keccak input.vrfRandom input.roundId input.serverSeed input.chainId) 1
      * ((30000 : ℚ) - 3000)⌋ : ℤ) : ℚ)) / (input.tickIntervalMs : ℚ)⌉ :=
    Int.ceil_pos.mpr (div_pos hdur htickQ)
  have hT : 1 ≤ (⌈(3000 + ((⌊getRandom keccak
      (deriveSeed keccak input.vrfRandom input.roundId input.serverSeed input.chainId) 1
      * ((30000 : ℚ) - 3000)⌋ : ℤ) : ℚ)) / (input.tickIntervalMs : ℚ)⌉).toNat := by
    omega
  obtain ⟨pre, last, heq, h3, hclose, hpre, hall⟩ :=
    tickLoop_spec
      ⟨fun i => getRandom keccak
          (deriveSeed keccak input.vrfRandom input.roundId input.serverSeed input.chainId) i,
        pw,
        (generateCrashGame keccak pw input).finalMultiplier,
        0.40 + getRandom keccak
          (deriveSeed keccak input.vrfRandom input.roundId input.serverSeed input.chainId) 2 * 0.30,
        0.15 + getRandom keccak
          (deriveSeed keccak input.vrfRandom input.roundId input.serverSeed input.chainId) 3 * 0.30,
        0.015 + getRandom keccak
          (deriveSeed keccak input.vrfRandom input.roundId input.serverSeed input.chainId) 4 * 0.020,
        0.5 + getRandom keccak
          (deriveSeed keccak input.vrfRandom input.roundId input.serverSeed input.chainId) 5 * 0.4,
        (⌈(3000 + ((⌊getRandom keccak
          (deriveSeed keccak input.vrfRandom input.roundId input.serverSeed input.chainId) 1
          * ((30000 : ℚ) - 3000)⌋ : ℤ) : ℚ)) / (input.tickIntervalMs : ℚ)⌉).toNat,
        input.startTimestamp, input.tickIntervalMs⟩
      hfix hmp
      ((⌈(3000 + ((⌊getRandom keccak
          (deriveSeed keccak input.vrfRandom input.roundId input.serverSeed input.chainId) 1
          * ((30000 : ℚ) - 3000)⌋ : ℤ) : ℚ)) / (input.tickIntervalMs : ℚ)⌉).toNat)
      0 1 1 hT (Nat.zero_add _) h1F
  have hupd : (generateCrashGame keccak pw input).updates
      = tickLoop
        ⟨fun i => getRandom keccak
            (deriveSeed keccak input.vrfRandom input.roundId input.serverSeed input.chainId) i,
          pw,
          (generateCrashGame keccak pw input).finalMultiplier,
          0.40 + getRandom keccak
            (deriveSeed keccak input.vrfRandom input.roundId input.serverSeed input.chainId) 2 * 0.30,
          0.15 + getRandom keccak
            (deriveSeed keccak input.vrfRandom input.roundId input.serverSeed input.chainId) 3 * 0.30,
          0.015 + getRandom keccak
            (deriveSeed keccak input.vrfRandom input.roundId input.serverSeed input.chainId) 4 * 0.020,
          0.5 + getRandom keccak
            (deriveSeed keccak input.vrfRandom input.roundId input.serverSeed input.chainId) 5 * 0.4,
          (⌈(3000 + ((⌊getRandom keccak
            (deriveSeed keccak input.vrfRandom input.roundId input.serverSeed input.chainId) 1
            * ((30000 : ℚ) - 3000)⌋ : ℤ) : ℚ)) / (input.tickIntervalMs : ℚ)⌉).toNat,
          input.startTimestamp, input.tickIntervalMs⟩
        ((⌈(3000 + ((⌊getRandom keccak
            (deriveSeed keccak input.vrfRandom input.roundId input.serverSeed input.chainId) 1
            * ((30000 : ℚ) - 3000)⌋ : ℤ) : ℚ)) / (input.tickIntervalMs : ℚ)⌉).toNat)
        0 1 1 := rfl
  rw [hupd]
  exact ⟨pre, last, heq, h3, hclose, hpre, hall⟩

/-! ### The Solidity contract: round status and seed reveal -/

/-- `RoundStatus` of `CrashGame.sol`. -/
inductive RoundStatus where
  | Created
  | RandomRequested
  | RandomReady
  | SeedRevealed
deriving DecidableEq

/-- The `Round` struct of `CrashGame.sol`.  `bytes32` values are carried as
big-endian integers, `bytes` as byte lists. -/
structure SolRound where
  serverSeedHash : Nat
  serverSeed : List Nat
  sequenceNumber : Nat
  entropyRandom : Nat
  status : RoundStatus

/-- Embedding of `revealServerSeed(roundId, serverSeed)` acting on the round
it addresses: the two `require` statements become error results, acceptance
stores the seed and moves the status to `SeedRevealed`. -/
def revealServerSeed (keccak : List Nat → Nat) (round : SolRound)
    (serverSeed : List Nat) : Except String SolRound :=
  if round.status ≠ RoundStatus.RandomReady then
    Except.error "Randomness not ready"
  else if keccak serverSeed ≠ round.serverSeedHash then
    Except.error "Server seed hash mismatch"
  else
    Except.ok { round with serverSeed := serverSeed, status := RoundStatus.SeedRevealed }

/-! ### The WebSocket orchestrator: cash-out validation -/

/-- Handler constant `HOUSE_EDGE` (1.5 %). -/
def HOUSE_EDGE : ℚ := 0.015

/-- Handler constant `MAX_WIN_PERCENTAGE` (70 % of the pool). -/
def MAX_WIN_PERCENTAGE : ℚ := 0.70

/-- Per-round live state tracked by the handler (`ActiveRound`). -/
inductive RoundState where
  | betting
  | running
  | ended
deriving DecidableEq

/-- The handler's `ActiveRound` record. -/
structure ActiveRound where
  roundId : Nat
  currentMultiplier : ℚ
  state : RoundState
  finalMultiplier : Option ℚ

/-- A recorded cash-out (`CashOut` in the handler). -/
structure CashOut where
  walletAddress : String
  multiplier : ℚ
  timestamp : ℚ
  verified : Bool

/-- An incoming `cash_out` message. -/
structure CashOutMsg where
  roundId : Nat
  multiplier : ℚ
  walletAddress : String

/-- The `cash_out_response` payload sent back over the socket (type tag and
echo fields dropped; `error` carries the typed reason on rejection, `payout`
the advisory payout on success). -/
structure CashOutResponse where
  success : Bool
  error : Option String
  payout : Option ℚ

/-- The handler's mutable maps that `handleCashOutRequest` reads and writes:
`activeRounds` and `activeCashOuts`, both keyed by round id. -/
structure HandlerState where
  activeRounds : Nat → Option ActiveRound
  activeCashOuts : Nat → List CashOut

/-- Embedding of `handleCashOutRequest`.  `getBet` stands for the on-chain
`contract.getBet(...).amount` read (in wei) and `balanceOf` for the pool
token balance read (in whole tokens), both assumed to answer; `now` is the
receipt time `Date.now() / 1000`.  The branches follow the source in order:
the JavaScript falsy-field guard, the active/running check, the multiplier
window, the on-chain bet check, the at-most-once check, then recording and
the advisory payout with its 70 % cap. -/
def handleCashOutRequest (st : HandlerState) (getBet : Nat → String → Nat)
    (balanceOf : ℚ) (now : ℚ) (msg : CashOutMsg) : CashOutResponse × HandlerState :=
  if msg.roundId = 0 ∨ msg.multiplier = 0 ∨ msg.walletAddress = "" then
    (⟨false, some "Missing required fields", none⟩, st)
  else
    match st.activeRounds msg.roundId with
    | none => (⟨false, some "Round not active", none⟩, st)
    | some activeRound =>
      if activeRound.state ≠ RoundState.running then
        (⟨false, some "Round not active", none⟩, st)
      else if msg.multiplier < 1 ∨ activeRound.currentMultiplier < msg.multiplier then
        (⟨false, some "Invalid multiplier", none⟩, st)
      else if getBet msg.roundId msg.walletAddress = 0 then
        (⟨false, some "No bet found", none⟩, st)
      else if (st.activeCashOuts msg.roundId).any
          (fun co => co.walletAddress.toLower = msg.walletAddress.toLower) then
        (⟨false, some "Already cashed out", none⟩, st)
      else
        let cashOut : CashOut := ⟨msg.walletAddress.toLower, msg.multiplier, now, true⟩
        let st2 : HandlerState :=
          ⟨st.activeRounds,
            fun rid => if rid = msg.roundId
              then st.activeCashOuts msg.roundId ++ [cashOut]
              else st.activeCashOuts rid⟩
        let betAmount : ℚ := (getBet msg.roundId msg.walletAddress : ℚ) / 10 ^ 18
        let payoutBeforeFee := betAmount * msg.multiplier
        let payout := payoutBeforeFee * (1 - HOUSE_EDGE)
        let maxWinPerPlayer := balanceOf * MAX_WIN_PERCENTAGE
        (⟨true, none, some (if maxWinPerPlayer < payout then maxWinPerPlayer else payout)⟩, st2)

/-! ### Settlement: batching and the contract payout arithmetic -/

/-- Handler constant `BATCH_SIZE`: 15 cash-outs per settlement transaction. -/
def BATCH_SIZE : Nat := 15

/-- The batching loop of `runGame`
(`for i = 0; i < cashOutData.length; i += BATCH_SIZE` with
`slice(i, i + BATCH_SIZE)`): the successive batches, in submission order. -/
def chunk15 {α : Type} : List α → List (List α)
  | [] => []
  | x :: xs => ((x :: xs).take BATCH_SIZE) :: chunk15 (xs.drop (BATCH_SIZE - 1))
termination_by l => l.length
decreasing_by simp [List.length_drop]; omega

/-- Contract constant `HOUSE_EDGE_BPS`. -/
def HOUSE_EDGE_BPS : Nat := 150

/-- Contract constant `BPS_DENOMINATOR`. -/
def BPS_DENOMINATOR : Nat := 10000

/-- Contract constant `MAX_WIN_PERCENTAGE_BPS`. -/
def MAX_WIN_PERCENTAGE_BPS : Nat := 7000

/-- The per-entry payout arithmetic of `processCashOuts` in `CrashGame.sol`
(uint256 arithmetic; both divisions truncate): fee-adjusted payout, then the
70 % cap against the live token balance. -/
def payoutWei (betAmount multiplier contractBalance : Nat) : Nat :=
  let payoutBeforeFee := betAmount * multiplier / 10 ^ 18
  let payout := payoutBeforeFee * (BPS_DENOMINATOR - HOUSE_EDGE_BPS) / BPS_DENOMINATOR
  let maxWinPerPlayer := contractBalance * MAX_WIN_PERCENTAGE_BPS / BPS_DENOMINATOR
  if maxWinPerPlayer < payout then maxWinPerPlayer else payout

/-- The payout as the claim words it: exact (real-number) arithmetic
`amount · multiplier · (1 − houseEdge)`, replaced by 70 % of the live
balance whenever the computed value exceeds that cap.  Stated over wei
amounts with the multiplier in units of `10 ^ 18 = 1.00x`. -/
def payoutClaimQ (betAmount multiplier contractBalance : Nat) : ℚ :=
  let computed := (betAmount : ℚ) * ((multiplier : ℚ) / 10 ^ 18) * (1 - 150 / 10000)
  let cap := (contractBalance : ℚ) * (7000 / 10000)
  if cap < computed then cap else computed

theorem chunk15_props {α : Type} :
    ∀ (n : Nat) (l : List α), l.length ≤ n →
      (chunk15 l).length = (l.length + 14) / 15 ∧
      (∀ b ∈ chunk15 l, b.length ≤ 15) ∧ (chunk15 l).flatten = l := by
  intro n
  induction n with
  | zero =>
      intro l hl
      have h : l = [] := List.eq_nil_of_length_eq_zero (by omega)
      subst h
      simp [chunk15]
  | succ n ih =>
      intro l hl
      match l with
      | [] => simp [chunk15]
      | x :: xs =>
          rw [chunk15]
          simp only [BATCH_SIZE]
          have hlen : (List.drop (15 - 1) xs).length ≤ n := by
            simp only [List.length_drop]
            simp only [List.length_cons] at hl
            omega
          obtain ⟨h1, h2, h3⟩ := ih (xs.drop (15 - 1)) hlen
          refine ⟨?_, ?_, ?_⟩
          · simp only [List.length_cons, h1, List.length_drop]
            omega
          · intro b hb
            rcases List.mem_cons.1 hb with h | h
            · subst h
              simp [List.length_take]
            · exact h2 b h
          · simp only [List.flatten_cons, h3]
            rw [show (x :: xs).take 15 = x :: xs.take 14 from rfl]
            rw [show (15 - 1 : Nat) = 14 from rfl]
            rw [List.cons_append, List.take_append_drop]

/-- The C8 statement: acceptance happens exactly when the round is live and
running, the claimed multiplier sits in `[1, live]`, the wallet has a
positive on-chain bet, and it has not cashed out before; acceptance appends
exactly one record and touches nothing else; rejection leaves the state
unchanged and carries one of the typed reasons. -/
def CashOutRequestSpec (st : HandlerState) (getBet : Nat → String → Nat)
    (balanceOf now : ℚ) (msg : CashOutMsg) : Prop :=
  ((handleCashOutRequest st getBet balanceOf now msg).1.success = true ↔
    ((∃ ar, st.activeRounds msg.roundId = some ar ∧ ar.state = RoundState.running ∧
        1 ≤ msg.multiplier ∧ msg.multiplier ≤ ar.currentMultiplier) ∧
      0 < getBet msg.roundId msg.walletAddress ∧
      (st.activeCashOuts msg.roundId).any
        (fun co => co.walletAddress.toLower = msg.walletAddress.toLower) = false)) ∧
  ((handleCashOutRequest st getBet balanceOf now msg).1.success = true →
    (handleCashOutRequest st getBet balanceOf now msg).2.activeCashOuts msg.roundId
      = st.activeCashOuts msg.roundId
          ++ [⟨msg.walletAddress.toLower, msg.multiplier, now, true⟩] ∧
    (handleCashOutRequest st getBet balanceOf now msg).2.activeRounds
      = st.activeRounds) ∧
  ((handleCashOutRequest st getBet balanceOf now msg).1.success = false →
    (handleCashOutRequest st getBet balanceOf now msg).2 = st ∧
    ∃ e, (handleCashOutRequest st getBet balanceOf now msg).1.error = some e ∧
      (e = "Round not active" ∨ e = "Invalid multiplier" ∨ e = "No bet found" ∨
        e = "Already cashed out" ∨ e = "Missing required fields"))

/-- C8: the cash-out request handler accepts exactly under the four spec
conditions, records exactly one entry on acceptance, and answers a typed
reason otherwise (for well-formed requests: nonzero round id, nonempty
wallet — the JavaScript falsy-field guard rejects the rest). -/
theorem handleCashOutRequest_spec (st : HandlerState) (getBet : Nat → String → Nat)
    (balanceOf now : ℚ) (msg : CashOutMsg)
    (hrid : msg.roundId ≠ 0) (hwallet : msg.walletAddress ≠ "") :
    CashOutRequestSpec st getBet balanceOf now msg := by
  unfold CashOutRequestSpec handleCashOutRequest
  by_cases h0 : msg.roundId = 0 ∨ msg.multiplier = 0 ∨ msg.walletAddress = ""
  · rw [if_pos h0]
    have hm0 : msg.multiplier = 0 := by tauto
    refine ⟨?_, ?_, ?_⟩
    · constructor
      · intro h
        exact absurd h (by simp)
      · rintro ⟨⟨ar, _, _, h1m, _⟩, _⟩
        rw [hm0] at h1m
        norm_num at h1m
    · intro h
      exact absurd h (by simp)
    · intro _
      exact ⟨rfl, "Missing required fields", rfl, by tauto⟩
  · rw [if_neg h0]
    cases har : st.activeRounds msg.roundId with
    | none =>
        dsimp only
        refine ⟨?_, ?_, ?_⟩
        · constructor
          · intro h
            exact absurd h (by simp)
          · rintro ⟨⟨ar, har2, _⟩, _⟩
            exact absurd har2 (by simp)
        · intro h
          exact absurd h (by simp)
        · intro _
          exact ⟨rfl, "Round not active", rfl, by tauto⟩
    | some ar =>
        dsimp only
        by_cases hstate : ar.state ≠ RoundState.running
        · rw [if_pos hstate]
          refine ⟨?_, ?_, ?_⟩
          · constructor
            · intro h
              exact absurd h (by simp)
            · rintro ⟨⟨ar2, har2, hrun, _⟩, _⟩
              injection har2 with har2
              subst har2
              exact absurd hrun hstate
          · intro h
            exact absurd h (by simp)
          · intro _
            exact ⟨rfl, "Round not active", rfl, by tauto⟩
        · rw [if_neg hstate]
          push_neg at hstate
          by_cases hmul : msg.multiplier < 1 ∨ ar.currentMultiplier < msg.multiplier
          · rw [if_pos hmul]
            refine ⟨?_, ?_, ?_⟩
            · constructor
              · intro h
                exact absurd h (by simp)
              · rintro ⟨⟨ar2, har2, _, h1m, hm2⟩, _⟩
                injection har2 with har2
                subst har2
                rcases hmul with h | h
                · linarith
                · linarith
            · intro h
              exact absurd h (by simp)
            · intro _
              exact ⟨rfl, "Invalid multiplier", rfl, by tauto⟩
          · rw [if_neg hmul]
            push_neg at hmul
            by_cases hbet : getBet msg.roundId msg.walletAddress = 0
            · rw [if_pos hbet]
              refine ⟨?_, ?_, ?_⟩
              · constructor
                · intro h
                  exact absurd h (by simp)
                · rintro ⟨_, hpos, _⟩
                  omega
              · intro h
                exact absurd h (by simp)
              · intro _
                exact ⟨rfl, "No bet found", rfl, by tauto⟩
            · rw [if_neg hbet]
              by_cases hprior : (st.activeCashOuts msg.roundId).any
                  (fun co => co.walletAddress.toLower = msg.walletAddress.toLower) = true
              · rw [if_pos hprior]
                refine ⟨?_, ?_, ?_⟩
                · constructor
                  · intro h
                    exact absurd h (by simp)
                  · rintro ⟨_, _, hnone⟩
                    rw [hprior] at hnone
                    exact absurd hnone (by simp)
                · intro h
                  exact absurd h (by simp)
                · intro _
                  exact ⟨rfl, "Already cashed out", rfl, by tauto⟩
              · rw [if_neg hprior]
                refine ⟨?_, ?_, ?_⟩
                · constructor
                  · intro _
                    refine ⟨⟨ar, rfl, hstate, hmul.1, hmul.2⟩, by omega, ?_⟩
                    exact Bool.not_eq_true _ |>.mp hprior
                  · intro _
                    rfl
                · intro _
                  constructor
                  · simp
                  · rfl
                · intro h
                  exact absurd h (by simp)

/-! ### Claim theorems -/

/-- C2: the final multiplier is exactly the clamp-and-round of
`(1 - houseEdge) / (1 - p)` with `p = houseEdge + r0 (1 - houseEdge)` and
`r0 = getRandom 0` over the derived seed; in particular `r0 = 0` gives an
instant crash at `1.00`. -/
theorem generateCrashGame_formula (keccak : List Nat → Nat) (pw : ℚ → ℚ → ℚ)
    (input : GameInput) :
    ((generateCrashGame keccak pw input).finalMultiplier
      = roundTo2 (max 1 (min ((1 - 0.015) /
          (1 - (0.015 + getRandom keccak
            (deriveSeed keccak input.vrfRandom input.roundId input.serverSeed input.chainId) 0
            * (1 - 0.015)))) 10000))) ∧
    (getRandom keccak
        (deriveSeed keccak input.vrfRandom input.roundId input.serverSeed input.chainId) 0 = 0 →
      (generateCrashGame keccak pw input).finalMultiplier = 1) := by
  refine ⟨rfl, ?_⟩
  intro h0
  have hchar : (generateCrashGame keccak pw input).finalMultiplier
      = roundTo2 (max 1 (min ((1 - 0.015) /
          (1 - (0.015 + getRandom keccak
            (deriveSeed keccak input.vrfRandom input.roundId input.serverSeed input.chainId) 0
            * (1 - 0.015)))) 10000)) := rfl
  rw [hchar, h0]
  have e1 : ((1 : ℚ) - 0.015) / (1 - (0.015 + 0 * (1 - 0.015))) = 1 := by norm_num
  rw [e1, min_eq_left (by norm_num), max_self]
  unfold roundTo2 jsRound
  norm_num

/-- Helper: with the all-zero hash, every random draw is zero. -/
theorem getRandom_zero (seed i : Nat) : getRandom (fun _ => 0) seed i = 0 := by
  simp [getRandom, roundDouble_zero]

/-- Witness for C2 at a concrete input. -/
theorem generateCrashGame_formula_witness :
    (generateCrashGame (fun _ => 0) (fun _ _ => 0)
      ⟨1, 0, "", 10143, 0, 100⟩).finalMultiplier = 1 :=
  (generateCrashGame_formula (fun _ => 0) (fun _ _ => 0) ⟨1, 0, "", 10143, 0, 100⟩).2
    (getRandom_zero _ _)

/-- C3: for every input the final multiplier lies in `[1, 10000]` and is an
integer number of hundredths. -/
theorem generateCrashGame_range (keccak : List Nat → Nat) (pw : ℚ → ℚ → ℚ)
    (input : GameInput) :
    1 ≤ (generateCrashGame keccak pw input).finalMultiplier ∧
    (generateCrashGame keccak pw input).finalMultiplier ≤ 10000 ∧
    ∃ n : ℤ, 100 ≤ n ∧ n ≤ 1000000 ∧
      (generateCrashGame keccak pw input).finalMultiplier = (n : ℚ) / 100 := by
  obtain ⟨n, h1, h2, heq⟩ := roundTo2_clamp_spec ((1 - 0.015) /
    (1 - (0.015 + getRandom keccak
      (deriveSeed keccak input.vrfRandom input.roundId input.serverSeed input.chainId) 0
      * (1 - 0.015))))
  have hchar : (generateCrashGame keccak pw input).finalMultiplier
      = roundTo2 (max 1 (min ((1 - 0.015) /
          (1 - (0.015 + getRandom keccak
            (deriveSeed keccak input.vrfRandom input.roundId input.serverSeed input.chainId) 0
            * (1 - 0.015)))) 10000)) := rfl
  refine ⟨?_, ?_, n, h1, h2, by rw [hchar, heq]⟩
  · rw [hchar, heq, le_div_iff₀ (by norm_num : (0 : ℚ) < 100)]
    have : (100 : ℚ) ≤ (n : ℚ) := by exact_mod_cast h1
    linarith
  · rw [hchar, heq, div_le_iff₀ (by norm_num : (0 : ℚ) < 100)]
    have : (n : ℚ) ≤ 1000000 := by exact_mod_cast h2
    linarith

/-- C4 (amended): with 256-bit digests, `getRandom` always lands in the
closed interval `[0, 1]`.  (The original claim's strict upper bound fails:
see the counterexample where the value 1 is attained.) -/
theorem getRandom_in_unit_interval (keccak : List Nat → Nat) (seed i : Nat)
    (hk : ∀ bs, keccak bs < 2 ^ 256) :
    0 ≤ getRandom keccak seed i ∧ getRandom keccak seed i ≤ 1 :=
  getRandom_bounds keccak seed i hk

/-- Witness for C4 at a concrete input. -/
theorem getRandom_in_unit_interval_witness :
    0 ≤ getRandom (fun _ => 0) 7 3 ∧ getRandom (fun _ => 0) 7 3 ≤ 1 :=
  getRandom_in_unit_interval (fun _ => 0) 7 3 (fun _ => by norm_num)

/-- Counterexample to C4 as stated: at the digest `2 ^ 256 - 1` the result
is not below 1 (it equals 1: numerator and denominator both round to
`2 ^ 256` in double precision). -/
theorem getRandom_not_lt_one : ¬ getRandom (fun _ => 2 ^ 256 - 1) 0 0 < 1 := by
  rw [getRandom_attains_one]
  exact lt_irrefl 1

/-- Counterexample to C5 as stated: the constant in the source is exactly
`2 ^ 256 - 1` — it does not exceed the true 256-bit maximum at all. -/
theorem maxUint256Const_not_oversized :
    maxUint256Const = 2 ^ 256 - 1 ∧ ¬ (2 ^ 256 - 1 < maxUint256Const) := by
  refine ⟨maxConst_eq, ?_⟩
  rw [maxConst_eq]
  exact lt_irrefl _

/-- C5 (amended): the `getRandom` denominator constant is exactly the true
256-bit maximum `2 ^ 256 - 1` (64 hex `f` digits = 32 bytes). -/
theorem maxUint256Const_value : maxUint256Const = 2 ^ 256 - 1 := maxConst_eq

/-- C6: the generator is pure — identical inputs produce identical results
(every field of every update, the final multiplier and the raw
multiplier). -/
theorem generateCrashGame_pure (keccak : List Nat → Nat) (pw : ℚ → ℚ → ℚ)
    (input1 input2 : GameInput) (h : input1 = input2) :
    generateCrashGame keccak pw input1 = generateCrashGame keccak pw input2 := by
  rw [h]

/-- Witness for C6 at a concrete input. -/
theorem generateCrashGame_pure_witness :
    generateCrashGame (fun _ => 0) (fun _ _ => 0) ⟨1, 2, "seed", 10143, 1700000000, 100⟩
      = generateCrashGame (fun _ => 0) (fun _ _ => 0)
          ⟨1, 2, "seed", 10143, 1700000000, 100⟩ :=
  generateCrashGame_pure (fun _ => 0) (fun _ _ => 0) _ _ rfl

/-- C7: once randomness is ready, a reveal is accepted exactly when the
keccak hash of the submitted seed equals the committed hash; acceptance
stores the seed and moves the round to `SeedRevealed`, a mismatch is the
hash-mismatch error. -/
theorem revealServerSeed_spec (keccak : List Nat → Nat) (round : SolRound)
    (serverSeed : List Nat) (hready : round.status = RoundStatus.RandomReady) :
    ((∃ r2, revealServerSeed keccak round serverSeed = Except.ok r2) ↔
      keccak serverSeed = round.serverSeedHash) ∧
    (keccak serverSeed = round.serverSeedHash →
      revealServerSeed keccak round serverSeed = Except.ok
        { round with serverSeed := serverSeed, status := RoundStatus.SeedRevealed }) ∧
    (keccak serverSeed ≠ round.serverSeedHash →
      revealServerSeed keccak round serverSeed
        = Except.error "Server seed hash mismatch") := by
  unfold revealServerSeed
  rw [if_neg (not_not_intro hready)]
  by_cases hh : keccak serverSeed = round.serverSeedHash
  · rw [if_neg (not_not_intro hh)]
    exact ⟨⟨fun _ => hh, fun _ => ⟨_, rfl⟩⟩, fun _ => rfl, fun hcon => absurd hh hcon⟩
  · rw [if_pos hh]
    refine ⟨⟨?_, fun h => absurd h hh⟩, fun h => absurd h hh, fun _ => rfl⟩
    rintro ⟨r2, hr2⟩
    exact absurd hr2 (by simp)

/-- Witness for C7 at a concrete round. -/
theorem revealServerSeed_spec_witness :
    ((∃ r2, revealServerSeed (fun bs => bs.length)
        ⟨2, [], 0, 0, RoundStatus.RandomReady⟩ [7, 7] = Except.ok r2) ↔
      (fun bs : List Nat => bs.length) [7, 7]
        = (⟨2, [], 0, 0, RoundStatus.RandomReady⟩ : SolRound).serverSeedHash) ∧
    ((fun bs : List Nat => bs.length) [7, 7]
        = (⟨2, [], 0, 0, RoundStatus.RandomReady⟩ : SolRound).serverSeedHash →
      revealServerSeed (fun bs => bs.length)
        ⟨2, [], 0, 0, RoundStatus.RandomReady⟩ [7, 7] = Except.ok
          { (⟨2, [], 0, 0, RoundStatus.RandomReady⟩ : SolRound) with
              serverSeed := [7, 7], status := RoundStatus.SeedRevealed }) ∧
    ((fun bs : List Nat => bs.length) [7, 7]
        ≠ (⟨2, [], 0, 0, RoundStatus.RandomReady⟩ : SolRound).serverSeedHash →
      revealServerSeed (fun bs => bs.length)
        ⟨2, [], 0, 0, RoundStatus.RandomReady⟩ [7, 7]
        = Except.error "Server seed hash mismatch") :=
  revealServerSeed_spec (fun bs => bs.length)
    ⟨2, [], 0, 0, RoundStatus.RandomReady⟩ [7, 7] rfl

/-- Witness for C8 at a concrete state and request. -/
theorem handleCashOutRequest_spec_witness :
    CashOutRequestSpec
      ⟨fun rid => if rid = 1 then some ⟨1, 2, RoundState.running, none⟩ else none,
        fun _ => []⟩
      (fun _ _ => 10 ^ 18) (10 ^ 6) 1700000000 ⟨1, 3 / 2, "0xAB"⟩ :=
  handleCashOutRequest_spec _ _ _ _ _ (by decide) (by decide)

/-- C9 (amended): settlement splits the records into `⌈N/15⌉` batches of at
most 15 entries each, preserving order; the contract computes each entry's
payout in truncating wei arithmetic
`(amount · multiplier / 10^18) · 9850 / 10000`, capped by
`balance · 7000 / 10000`. -/
theorem settlement_batching_payout_spec {α : Type} (l : List α)
    (betAmount multiplier contractBalance : Nat) :
    (chunk15 l).length = (l.length + 14) / 15 ∧
    (∀ b ∈ chunk15 l, b.length ≤ 15) ∧
    (chunk15 l).flatten = l ∧
    payoutWei betAmount multiplier contractBalance
      = min (betAmount * multiplier / 10 ^ 18 * (BPS_DENOMINATOR - HOUSE_EDGE_BPS)
            / BPS_DENOMINATOR)
          (contractBalance * MAX_WIN_PERCENTAGE_BPS / BPS_DENOMINATOR) := by
  obtain ⟨h1, h2, h3⟩ := chunk15_props l.length l le_rfl
  refine ⟨h1, h2, h3, ?_⟩
  simp only [payoutWei]
  split_ifs with h
  · exact (Nat.min_eq_right h.le).symm
  · push_neg at h
    exact (Nat.min_eq_left h).symm

/-- Counterexample to C9 as stated: for a 1-wei bet at 1.00x, the contract's
truncating arithmetic pays 0 wei where the exact formula
`amount · multiplier · (1 − houseEdge)` (capped at 70 % of the balance)
gives 0.985 wei. -/
theorem payout_truncation_counterexample :
    ((payoutWei 1 (10 ^ 18) (10 ^ 18) : Nat) : ℚ)
      ≠ payoutClaimQ 1 (10 ^ 18) (10 ^ 18) := by
  have h1 : payoutWei 1 (10 ^ 18) (10 ^ 18) = 0 := by decide
  have h2 : payoutClaimQ 1 (10 ^ 18) (10 ^ 18) = 197 / 200 := by
    unfold payoutClaimQ
    rw [if_neg (by norm_num)]
    norm_num
  rw [h1, h2]
  norm_num

/-- Witness for C10 at a concrete input. -/
theorem generateCrashGame_updates_spec_witness :
    ∃ pre last,
      (generateCrashGame (fun _ => 0) (fun _ _ => 0)
        ⟨1, 2, "s", 10143, 1700000000, 100⟩).updates = pre ++ [last] ∧
      last.gameState = 3 ∧
      last.bar.close = (generateCrashGame (fun _ => 0) (fun _ _ => 0)
        ⟨1, 2, "s", 10143, 1700000000, 100⟩).finalMultiplier ∧
      (∀ u ∈ pre, u.gameState = 2) ∧
      (∀ u ∈ (generateCrashGame (fun _ => 0) (fun _ _ => 0)
          ⟨1, 2, "s", 10143, 1700000000, 100⟩).updates,
        u.bar.copen ≤ (generateCrashGame (fun _ => 0) (fun _ _ => 0)
          ⟨1, 2, "s", 10143, 1700000000, 100⟩).finalMultiplier ∧
        u.bar.high ≤ (generateCrashGame (fun _ => 0) (fun _ _ => 0)
          ⟨1, 2, "s", 10143, 1700000000, 100⟩).finalMultiplier ∧
        u.bar.low ≤ (generateCrashGame (fun _ => 0) (fun _ _ => 0)
          ⟨1, 2, "s", 10143, 1700000000, 100⟩).finalMultiplier ∧
        u.bar.close ≤ (generateCrashGame (fun _ => 0) (fun _ _ => 0)
          ⟨1, 2, "s", 10143, 1700000000, 100⟩).finalMultiplier ∧
        u.bar.high = max u.bar.copen u.bar.close ∧
        u.bar.low = min u.bar.copen u.bar.close) :=
  generateCrashGame_updates_spec (fun _ => 0) (fun _ _ => 0)
    ⟨1, 2, "s", 10143, 1700000000, 100⟩ (fun _ => by norm_num) (by decide)
